import Mathlib

/-!
Shallow embedding of the `template_environment` agent runtime and its
trace-driven evaluation engine, together with theorems settling the
specification claims about them.

Embedded source files:
* `agents/base_thinking_agent.py` — `BaseThinkingAgent.handle_user_task`,
  `handle_agent_task`, `handle_function_calls`, `handle_response`.
* `reflection/base_reflection.py` — `BaseReflection.think`, `run_reflection`
  and the thought tools.
* `eval/metrics/agent_step_metrics.py` — the nulling step of
  `stepwise_agent_eval`, and `compute_stepwise_metrics.calibrate` plus the
  step-score aggregation.
* `eval/utils/chat_utils.py` — `parse_chat_n`.
* `eval/services/evaluation_service.py` — the transactional shape of
  `EvaluationService.run_evaluation`.

External collaborators (the LLM completion client, `json.loads`, the tool
implementations, the SQL session) are modelled as parameters: the model
client is a script of results consumed one call at a time, JSON parsing is
an environment predicate on the raw argument strings, and tools are
environment functions returning either a value or a thrown exception.
-/

namespace TemplateEnv

/-- A structured tool call returned by the model
(`autogen_core.FunctionCall`): `{id, name, arguments}` with `arguments` a
JSON-encoded string. -/
structure FunctionCall where
  id : String
  name : String
  arguments : String
deriving DecidableEq, Repr

/-- One tool execution result (`autogen_core.models.FunctionExecutionResult`):
`{name, content, call_id, is_error}`. -/
structure FunctionExecutionResult where
  name : String
  content : String
  call_id : String
  isError : Bool
deriving DecidableEq, Repr

/-- A chat-history entry (`autogen_core.models.LLMMessage`).  The Python
`AssistantMessage` carries either free text or a list of `FunctionCall`; the
two shapes are mutually exclusive, so they are split into two constructors. -/
inductive LLMMessage where
  | system (content : String)
  | user (content : String) (source : String)
  | assistantText (content : String) (source : String)
  | assistantCalls (calls : List FunctionCall) (source : String)
  | functionResults (results : List FunctionExecutionResult)
deriving DecidableEq, Repr

/-- The content of a model-completion result (`CreateResult.content`):
plain text or an ordered list of structured tool calls.  The Python code
re-checks this shape with `isinstance(content, list) and all(isinstance(m,
FunctionCall) ...)`; under the client's declared type `str |
List[FunctionCall]` that check is exactly this tag. -/
inductive ModelContent where
  | text (s : String)
  | calls (cs : List FunctionCall)
deriving DecidableEq, Repr

/-- The `.content` attribute read by `handle_agent_task`'s merge
(`f"\n\n{message.context[-1].content}"`).  For non-textual entries Python
would stringify the payload; only textual entries are exercised by the
claims, so the stringification of the two structured shapes is abstracted
to a fixed rendering of their lengths. -/
def LLMMessage.contentStr : LLMMessage → String
  | .system c => c
  | .user c _ => c
  | .assistantText c _ => c
  | .assistantCalls cs _ => "[function calls " ++ toString cs.length ++ "]"
  | .functionResults rs => "[function results " ++ toString rs.length ++ "]"

/-- Environment of external collaborators for one agent: the agent's type
name, its optional broadcast topic, `json.loads` success on an arguments
string, the two disjoint tool pools of `BaseThinkingAgent.__init__`
(`self._tools` and `self._communication_tools`, by name), their execution
functions (`Except.error` models a thrown Python exception, whose
stringification is the carried message), and the extraction of the
`thought` keyword argument used by the reflection tools (`none` models a
`run_json` signature mismatch, which raises inside the tool call). -/
structure Env where
  agentType : String
  broadcastTopic : Option String
  jsonOk : String → Bool
  localTools : List String
  commTools : List String
  runLocal : String → String → Except String String
  runComm : String → String → Except String String
  thoughtArg : String → Option String

/-! ## Tool Invocation Resolver
`BaseThinkingAgent.handle_function_calls`, per-call body (lines 227-310).
`arguments = json.loads(call.arguments)` runs before any try block, so a
parse failure is a raised exception (`Except.error`); every other outcome
appends exactly one `FunctionExecutionResult`. -/

/-- Execute one `FunctionCall` of a batch: parse the arguments, look the
name up first in local tools, then communication tools, else produce the
`NameError` result of the invalid-tool branch (whose own internal raise is
caught by its `except Exception: pass`). -/
def execCall (env : Env) (call : FunctionCall) : Except String FunctionExecutionResult :=
  if env.jsonOk call.arguments = false then
    .error ("json.loads failed on arguments of " ++ call.name)
  else if call.name ∈ env.localTools then
    match env.runLocal call.name call.arguments with
    | .ok s => .ok ⟨call.name, s, call.id, false⟩
    | .error e => .ok ⟨call.name, e, call.id, true⟩
  else if call.name ∈ env.commTools then
    match env.runComm call.name call.arguments with
    | .ok s => .ok ⟨call.name, s, call.id, false⟩
    | .error e => .ok ⟨call.name, e, call.id, true⟩
  else
    .ok ⟨call.name, "NameError: " ++ call.name ++ " is not a valid tool", call.id, true⟩

/-- The `for call in llm_result.content` loop of `handle_function_calls`:
`self._num_tool_calls += 1` precedes the parse, so the counter increments
retained at a raise include the failing call; on success the accumulated
`tool_results` list preserves call order. -/
def processCalls (env : Env) : List FunctionCall → Nat → Except (String × Nat) (List FunctionExecutionResult × Nat)
  | [], k => .ok ([], k)
  | c :: cs, k =>
    match execCall env c with
    | .error e => .error (e, k + 1)
    | .ok r =>
      match processCalls env cs (k + 1) with
      | .error ek => .error ek
      | .ok (rs, k2) => .ok (r :: rs, k2)

/-! ## Reflection Sub-loop
`BaseReflection` in `reflection/base_reflection.py`.  `think` receives a
deep copy of the agent's chat history; whatever it returns is what the
agent extends its live history with. -/

/-- The three thought tools registered in `BaseReflection.__init__`. -/
def reflToolNames : List String := ["create_thought", "get_thought", "update_thought"]

/-- Run one thought tool (`create_thought` / `get_thought` /
`update_thought`): returns the execution result entry and the new thought.
An argument-signature mismatch inside `run_json` is caught by the
surrounding `except` and becomes an `is_error` result. -/
def reflRunTool (env : Env) (thought : String) (call : FunctionCall) :
    FunctionExecutionResult × String :=
  if call.name = "get_thought" then
    (⟨call.name, thought, call.id, false⟩, thought)
  else
    match env.thoughtArg call.arguments with
    | some t =>
      (⟨call.name,
        (if call.name = "create_thought" then "Thought created" else "Thought updated"),
        call.id, false⟩, t)
    | none => (⟨call.name, "TypeError: invalid arguments", call.id, true⟩, thought)

/-- The `for call in result.content` loop of `run_reflection`:
`json.loads` failure raises (it is outside the try); names not among the
three registered tools are skipped without a result; the Boolean reports
whether `get_thought` was among the calls. -/
def reflExec (env : Env) : List FunctionCall → String →
    Except String (List FunctionExecutionResult × String × Bool)
  | [], th => .ok ([], th, false)
  | c :: cs, th =>
    if env.jsonOk c.arguments = false then
      .error ("json.loads failed on arguments of " ++ c.name)
    else
      let step : List FunctionExecutionResult × String :=
        if c.name ∈ reflToolNames then
          let r := reflRunTool env th c
          ([r.1], r.2)
        else ([], th)
      match reflExec env cs step.2 with
      | .error e => .error e
      | .ok (rs, th2, f2) => .ok (step.1 ++ rs, th2, (c.name = "get_thought") || f2)

/-- Runtime exception of the embedded handlers: a raised Python exception,
exhaustion of the model script (the external client has no further
response), or exhaustion of the recursion fuel. -/
inductive Exn where
  | exn (msg : String)
  | scriptEnd
  | fuelOut
deriving DecidableEq, Repr

/-- Return value of `run_reflection`: the `think_context` the caller
receives, the final thought, the unconsumed model script, and the final
state of the local (deep-copied) `context` list the function mutated. -/
structure ReflOut where
  thinkContext : List LLMMessage
  thought : String
  rest : List ModelContent
  ctx : List LLMMessage
deriving DecidableEq, Repr

/-- `BaseReflection.run_reflection`.  With an existing thought the model is
restricted to `get_thought`/`update_thought`; if `get_thought` was among
the calls the exchange is appended to the local `context` and the function
recurses, otherwise the exchange alone is returned.  With no thought the
model is forced onto `create_thought` and the exchange is returned (the
assistant entry is also appended to the local `context` first). -/
def runReflection (env : Env) : Nat → String → List LLMMessage → List ModelContent →
    Except Exn ReflOut
  | fuel, thought, ctx, script =>
    if thought ≠ "" then
      match script with
      | [] => .error .scriptEnd
      | .text _ :: _ => .error (.exn "reflection expected tool calls")
      | .calls cs :: rest =>
        match reflExec env cs thought with
        | .error e => .error (.exn e)
        | .ok (res, th, flag) =>
          if flag then
            let ctx := ctx ++ [.assistantCalls cs env.agentType, .functionResults res]
            match fuel with
            | 0 => .error .fuelOut
            | f + 1 => runReflection env f th ctx rest
          else
            .ok ⟨[.assistantCalls cs env.agentType, .functionResults res], th, rest, ctx⟩
    else
      match script with
      | [] => .error .scriptEnd
      | .text _ :: _ => .error (.exn "reflection expected tool calls")
      | .calls cs :: rest =>
        let ctx := ctx ++ [.assistantCalls cs env.agentType]
        match reflExec env cs thought with
        | .error e => .error (.exn e)
        | .ok (res, th, _) =>
          .ok ⟨[.assistantCalls cs env.agentType, .functionResults res], th, rest, ctx⟩

/-- The fixed thinking instruction of `BaseReflection.__init__`. -/
def thinkingPrompt : String :=
  "Based on context above, use the tools available to " ++
  "you to think and follow a step-by-step thought process " ++
  "that will guide you to the solution to the task. " ++
  "The thought should be in the form of a markdown list " ++
  "with a checkbox at the start of each step. " ++
  "Update your thought process as the task progresses."

/-- First half of `BaseReflection.think`: append the thinking prompt to the
last turn when it is a user turn, else open a new user turn. -/
def appendThinkingPrompt (ctx : List LLMMessage) (agentType : String) : List LLMMessage :=
  match ctx.getLast? with
  | some (.user c src) => ctx.dropLast ++ [.user (c ++ "\n\n" ++ thinkingPrompt) src]
  | _ => ctx ++ [.user thinkingPrompt agentType]

/-- `BaseReflection.think`: prompt injection followed by `run_reflection`.
The caller passes a deep copy of its chat history, so mutations of `ctx`
never reach the agent's live history. -/
def think (env : Env) (fuel : Nat) (thought : String) (context : List LLMMessage)
    (script : List ModelContent) : Except Exn ReflOut :=
  runReflection env fuel thought (appendThinkingPrompt context env.agentType) script

/-! ## Agent Execution State Machine
`BaseThinkingAgent` handler bodies.  The model client is a script of
`ModelContent` results consumed one `create` call at a time (shared between
the agent and its reflection, as in the Python code).  `responses` records
every published `AgentResponse` as (topic, content); `reflections` counts
invocations of `self._reflection.think`. -/

/-- Mutable instance state of one `BaseThinkingAgent` plus the observables
needed by the claims (published responses / broadcasts, reflection-pass
count). -/
structure AgentState where
  chatHistory : List LLMMessage
  senderTopic : String
  numToolCalls : Nat
  thought : String
  responses : List (String × String)
  broadcasts : List String
  reflections : Nat
deriving DecidableEq, Repr

/-- The agent state carried by an outcome: the final state on success, the
state at the raise on an exception. -/
def stateOf : Except (Exn × AgentState) (AgentState × List ModelContent) → AgentState
  | .error (_, st) => st
  | .ok (st, _) => st

/-- `BaseThinkingAgent.handle_response`: append the content as an Assistant
entry and publish one `AgentResponse` to the recorded reply-target topic. -/
def handleResponse (env : Env) (st : AgentState) (content : String) : AgentState :=
  { st with
    chatHistory := st.chatHistory ++ [.assistantText content env.agentType],
    responses := st.responses ++ [(st.senderTopic, content)] }

/-- Body of `handle_function_calls` up to and including the conditional
reflection pass (lines 220-323): append the assistant tool-call entry, run
the batch, append the single results entry, and reflect when the running
counter exceeds 3 (resetting it afterwards). -/
def batchPhase (env : Env) (fuel : Nat) (st : AgentState) (calls : List FunctionCall)
    (script : List ModelContent) : Except (Exn × AgentState) (AgentState × List ModelContent) :=
  let st := { st with
    chatHistory := st.chatHistory ++ [LLMMessage.assistantCalls calls env.agentType] }
  match processCalls env calls st.numToolCalls with
  | .error (e, k) => .error (.exn e, { st with numToolCalls := k })
  | .ok (rs, k) =>
    let st := { st with
      chatHistory := st.chatHistory ++ [LLMMessage.functionResults rs], numToolCalls := k }
    if 3 < st.numToolCalls then
      let st := { st with reflections := st.reflections + 1 }
      match think env fuel st.thought st.chatHistory script with
      | .error e => .error (e, st)
      | .ok r =>
        .ok ({ st with
          chatHistory := st.chatHistory ++ r.thinkContext,
          thought := r.thought, numToolCalls := 0 }, r.rest)
    else
      .ok (st, script)

/-- `BaseThinkingAgent.handle_function_calls`: the batch phase, then one
more model call whose result either recurses into another batch or is
handed to `handle_response`. -/
def handleFunctionCalls (env : Env) : Nat → AgentState → List FunctionCall →
    List ModelContent → Except (Exn × AgentState) (AgentState × List ModelContent)
  | fuel, st, calls, script =>
    match batchPhase env fuel st calls script with
    | .error e => .error e
    | .ok (st, script) =>
      match script with
      | [] => .error (.scriptEnd, st)
      | .text s :: rest => .ok (handleResponse env st s, rest)
      | .calls cs :: rest =>
        match fuel with
        | 0 => .error (.fuelOut, st)
        | f + 1 => handleFunctionCalls env f st cs rest

/-- `handle_user_task` up to the model call: record the reply target,
optionally broadcast, extend the history with the message context (no
merging on this path), and run the unconditional reflection pass (which
does not touch `_num_tool_calls`). -/
def userTaskReceive (env : Env) (fuel : Nat) (st : AgentState) (senderTopic : String)
    (context : List LLMMessage) (script : List ModelContent) :
    Except (Exn × AgentState) (AgentState × List ModelContent) :=
  let st := { st with senderTopic := senderTopic }
  let st :=
    match env.broadcastTopic with
    | some t => { st with broadcasts := st.broadcasts ++ [t] }
    | none => st
  let st := { st with chatHistory := st.chatHistory ++ context }
  let st := { st with reflections := st.reflections + 1 }
  match think env fuel st.thought st.chatHistory script with
  | .error e => .error (e, st)
  | .ok r =>
    .ok ({ st with chatHistory := st.chatHistory ++ r.thinkContext, thought := r.thought },
      r.rest)

/-- `BaseThinkingAgent.handle_user_task`: prefix, then dispatch the model
result — a pure tool-call list goes to `handle_function_calls`, anything
else to `handle_response`. -/
def handleUserTask (env : Env) (fuel : Nat) (st : AgentState) (senderTopic : String)
    (context : List LLMMessage) (script : List ModelContent) :
    Except (Exn × AgentState) (AgentState × List ModelContent) :=
  match userTaskReceive env fuel st senderTopic context script with
  | .error e => .error e
  | .ok (st, script) =>
    match script with
    | [] => .error (.scriptEnd, st)
    | .text s :: rest => .ok (handleResponse env st s, rest)
    | .calls cs :: rest => handleFunctionCalls env fuel st cs rest

/-- `handle_agent_task` lines 162-168: when the history's ending entry is a
plain user turn, the final context entry's content is concatenated onto it
(`self._chat_history[-1].content += f"\n\n{message.context[-1].content}"`);
otherwise the context entries are appended.  Then the reply target is
recorded.  An empty context in the merge branch raises `IndexError`. -/
def agentTaskReceive (st : AgentState) (senderTopic : String) (context : List LLMMessage) :
    Except (Exn × AgentState) AgentState :=
  match st.chatHistory.getLast? with
  | some (.user c src) =>
    match context.getLast? with
    | some last =>
      .ok { st with
        chatHistory := st.chatHistory.dropLast ++
          [.user (c ++ "\n\n" ++ last.contentStr) src],
        senderTopic := senderTopic }
    | none => .error (.exn "IndexError: empty context", st)
  | _ => .ok { st with chatHistory := st.chatHistory ++ context, senderTopic := senderTopic }

/-- `BaseThinkingAgent.handle_agent_task`: prefix (no reflection pass, no
broadcast), then one model call; a pure tool-call list goes to
`handle_function_calls`, and any other result falls through the
handler's missing `else` branch — nothing is appended and nothing is
published. -/
def handleAgentTask (env : Env) (fuel : Nat) (st : AgentState) (senderTopic : String)
    (context : List LLMMessage) (script : List ModelContent) :
    Except (Exn × AgentState) (AgentState × List ModelContent) :=
  match agentTaskReceive st senderTopic context with
  | .error e => .error e
  | .ok st =>
    match script with
    | [] => .error (.scriptEnd, st)
    | .calls cs :: rest => handleFunctionCalls env fuel st cs rest
    | .text _ :: rest => .ok (st, rest)

/-! ## Score calibration and aggregation
`compute_stepwise_metrics` in `eval/metrics/agent_step_metrics.py`.
Python floats are modelled as rationals. -/

/-- `compute_stepwise_metrics.calibrate`: clamp the raw score into
`[min_score, max_score]` and pull it toward the scale midpoint in
proportion to `(1 - confidence)`. -/
def calibrate (minScore maxScore score conf : ℚ) : ℚ :=
  let s := max minScore (min score maxScore)
  let mid := (minScore + maxScore) / 2
  conf * s + (1 - conf) * mid

/-- The per-step aggregation of `compute_stepwise_metrics` (lines 119-148):
dimensions whose score or confidence is absent are skipped, the remaining
scores are calibrated, and `step_score_aggregated` is their mean, `none`
when no dimension survives. -/
def stepScoreAggregated (minScore maxScore : ℚ) (dims : List (Option (ℚ × ℚ))) : Option ℚ :=
  let cals := (dims.filterMap id).map fun p => calibrate minScore maxScore p.1 p.2
  if cals.length = 0 then none else some (cals.sum / cals.length)

/-! ## Chat-to-steps parsing
`parse_chat_n` in `eval/utils/chat_utils.py`. -/

/-- One recorded tool call inside a reconstructed assistant turn
(`tool_call.function.name` / `tool_call.function.arguments`). -/
structure ToolCallRec where
  name : String
  arguments : String
deriving DecidableEq, Repr

/-- One turn of a reconstructed chat transcript, keyed by the
`message.role` field `parse_chat_n` dispatches on. -/
inductive ChatMsg where
  | system (content : String)
  | user (content : String)
  | assistant (content : String) (toolCalls : List ToolCallRec)
  | tool (toolCallId : String) (content : String)
deriving DecidableEq, Repr

/-- One step produced by `parse_chat_n`. -/
structure Step where
  systemPrompt : Option String
  userPrompt : Option String
  strategy : String
  previousResponses : Option String
  currentResponse : String
  chatIndex : Nat
deriving DecidableEq, Repr

/-- Python `l[-n:]` on the rolling response window, including the `n = 0`
quirk where `l[-0:]` is the whole list. -/
def takeLastPy (n : Nat) (l : List String) : List String :=
  if n = 0 then l else l.drop (l.length - n)

/-- The `previous_response_str` computation: `None` when no prior assistant
response exists in the current user-turn window, otherwise the windowed
responses each under a numbered separator line. -/
def prevRespStr (nPrev : Nat) (prev : List String) : Option String :=
  match prev with
  | [] => none
  | _ =>
    let win := takeLastPy nPrev prev
    some (String.join (win.enum.map fun p =>
      "---------- Previous response " ++ toString (win.length - p.1) ++
      " ----------\n\n" ++ p.2 ++ "\n\n"))

/-- The tool-result turns immediately following an assistant tool-call
turn, stopping at the first non-tool turn. -/
def toolResultsAfter (rest : List ChatMsg) : List (String × String) :=
  (rest.takeWhile fun m => match m with | .tool _ _ => true | _ => false).filterMap
    fun m => match m with | .tool i c => some (i, c) | _ => none

/-- The Python `chat_index` value: the loop variable `idx` is shadowed by
the inner `enumerate` over the response window, so when the window is
non-empty the recorded index is the last enumeration index instead of the
turn index. -/
def chatIndexPy (nPrev outerIdx : Nat) (prev : List String) : Nat :=
  if prev = [] then outerIdx else (takeLastPy nPrev prev).length - 1

/-- Accumulator of `parse_chat_n`'s walk. -/
structure ParseAcc where
  steps : List Step
  strategy : List String
  systemPrompt : Option String
  userPrompt : Option String
  prevResponses : List String
deriving DecidableEq, Repr

/-- The walk of `parse_chat_n`: a system turn overwrites the system prompt;
a user turn sets the user prompt and empties the response window; an
assistant turn with tool calls extends the strategy with the tool names and
produces a step only when tool-result turns follow (otherwise `continue`);
a plain assistant turn appends the literal label `"agent response"` and
produces a step; tool turns are skipped. -/
def parseGo (nPrev : Nat) : Nat → List ChatMsg → ParseAcc → ParseAcc
  | _, [], s => s
  | idx, m :: rest, s =>
    match m with
    | .system c => parseGo nPrev (idx + 1) rest { s with systemPrompt := some c }
    | .user c =>
      parseGo nPrev (idx + 1) rest { s with userPrompt := some c, prevResponses := [] }
    | .tool _ _ => parseGo nPrev (idx + 1) rest s
    | .assistant content toolCalls =>
      if toolCalls ≠ [] then
        let tcStr := String.intercalate "\n\n" (toolCalls.map fun tc =>
          "Tool Call: " ++ tc.name ++ "\nArguments: " ++ tc.arguments)
        let strategy := s.strategy ++ toolCalls.map (·.name)
        let results := toolResultsAfter rest
        if results = [] then
          parseGo nPrev (idx + 1) rest { s with strategy := strategy }
        else
          let trStr := String.intercalate "\n\n" (results.map fun r =>
            "Tool ID: " ++ r.1 ++ "\nTool Result: " ++ r.2)
          let currentResponse :=
            "Tool_calls:\n\n" ++ tcStr ++ "\n\nTool_results:\n\n" ++ trStr
          let step : Step :=
            ⟨s.systemPrompt, s.userPrompt, String.intercalate " -> " strategy,
              prevRespStr nPrev s.prevResponses, currentResponse,
              chatIndexPy nPrev idx s.prevResponses⟩
          parseGo nPrev (idx + 1) rest { s with
            steps := s.steps ++ [step], strategy := strategy,
            prevResponses := takeLastPy nPrev (s.prevResponses ++ [currentResponse]) }
      else
        let step : Step :=
          ⟨s.systemPrompt, s.userPrompt,
            String.intercalate " -> " (s.strategy ++ ["agent response"]),
            prevRespStr nPrev s.prevResponses, content,
            chatIndexPy nPrev idx s.prevResponses⟩
        parseGo nPrev (idx + 1) rest { s with
          steps := s.steps ++ [step], strategy := s.strategy ++ ["agent response"],
          prevResponses := takeLastPy nPrev (s.prevResponses ++ [content]) }

/-- `parse_chat_n(chat, n_previous)`. -/
def parseChatN (chat : List ChatMsg) (nPrev : Nat) : List Step :=
  (parseGo nPrev 0 chat ⟨[], [], none, none, []⟩).steps

/-! ## Stepwise score nulling
The post-processing of `stepwise_agent_eval` (lines 78-83 of
`eval/metrics/agent_step_metrics.py`). -/

/-- One scored rubric dimension: raw score and derived confidence. -/
structure ScoreConf where
  score : ℚ
  confidence : ℚ
deriving DecidableEq, Repr

/-- The five rubric dimensions of `StepwiseScore`, each `none` when
nulled. -/
structure StepScores where
  invokedToolCorrectness : Option ScoreConf
  contextualCoherence : Option ScoreConf
  responseCompleteness : Option ScoreConf
  toolResultCorrectness : Option ScoreConf
  roleAdherence : Option ScoreConf
deriving DecidableEq, Repr

/-- Whether the separator occurs anywhere in the character list. -/
def containsSep (sep : List Char) : List Char → Bool
  | [] => false
  | c :: rest => sep.isPrefixOf (c :: rest) || containsSep sep rest

/-- Fuel-driven scan returning the suffix after the last (greedy,
left-to-right) occurrence of the separator — the Python
`s.split(sep)[-1]`.  The fuel is an upper bound on the scan length so the
recursion is structural. -/
def lastSegGo (sep : List Char) : Nat → List Char → List Char
  | _, [] => []
  | 0, cs => cs
  | f + 1, c :: rest =>
    if sep.isPrefixOf (c :: rest) then
      lastSegGo sep f ((c :: rest).drop sep.length)
    else if containsSep sep rest then
      lastSegGo sep f rest
    else
      c :: rest

/-- `step["strategy"].split(" -> ")[-1]`: the final strategy label. -/
def lastStrategyLabel (s : String) : String :=
  String.mk (lastSegGo [' ', '-', '>', ' '] s.data.length s.data)

/-- The contextual nulling of `stepwise_agent_eval`:
`contextual_coherence` is nulled when `previous_responses` is falsy (`None`
or the empty string); then, when the last `" -> "`-separated strategy label
equals the literal `"response"`, both tool-correctness dimensions are
nulled, and otherwise `response_completeness` is nulled. -/
def nullInapplicable (strategy : String) (previousResponses : Option String)
    (r : StepScores) : StepScores :=
  let r :=
    if previousResponses = none ∨ previousResponses = some "" then
      { r with contextualCoherence := none }
    else r
  if lastStrategyLabel strategy = "response" then
    { r with invokedToolCorrectness := none, toolResultCorrectness := none }
  else
    { r with responseCompleteness := none }

/-! ## Evaluation-run transaction
The transactional shape of `EvaluationService.run_evaluation` together
with the mid-run commit of `calculate_tool_usefulness` (which is invoked
from `evaluate_trace`, inside the try block).  A `DbState` models the SQL
session: already-committed rows, pending (uncommitted) rows, the committed
status of the evaluation row and its pending update. -/

/-- The kind of a persisted row: a `ToolUsefulness` record written by
`calculate_tool_usefulness`, or one of the `Agent`/`AgentTrace`/`AgentStep`
records written by the final persistence loop. -/
inductive RowKind where
  | toolUsefulness
  | agentRecord
deriving DecidableEq, Repr

/-- A transactional store: `commit` makes pending rows and the pending
status durable, `rollback` discards them. -/
structure DbState where
  committed : List (RowKind × String)
  pending : List (RowKind × String)
  status : String
  pendingStatus : Option String
deriving DecidableEq, Repr

/-- `db.commit()`. -/
def DbState.commit (db : DbState) : DbState :=
  { committed := db.committed ++ db.pending, pending := [],
    status := db.pendingStatus.getD db.status, pendingStatus := none }

/-- `db.rollback()`. -/
def DbState.rollback (db : DbState) : DbState :=
  { db with pending := [], pendingStatus := none }

/-- The phase of `run_evaluation` in which an exception is raised:
trajectory curation, tool-metric computation, tool-usefulness scoring,
stepwise evaluation, or the final persistence loop. -/
inductive EvalPhase where
  | curate
  | toolMetrics
  | toolUsefulness
  | evalSteps
  | persist
deriving DecidableEq, Repr

/-- The try-block body of `run_evaluation`: the phases of `evaluate_trace`
in order, with `calculate_tool_usefulness` adding its rows and then
committing mid-run, followed by the persistence loop, the `COMPLETED`
status update and the final commit.  `failAt` names the phase whose work
raises (at its start); `Except.error` carries the session state at the
raise. -/
def runEvaluationBody (failAt : Option EvalPhase) (usefulRows agentRows : List String)
    (db : DbState) : Except DbState DbState :=
  if failAt = some EvalPhase.curate then .error db
  else if failAt = some EvalPhase.toolMetrics then .error db
  else if failAt = some EvalPhase.toolUsefulness then .error db
  else
    let db := DbState.commit { db with
      pending := db.pending ++ usefulRows.map fun r => (RowKind.toolUsefulness, r) }
    if failAt = some EvalPhase.evalSteps then .error db
    else if failAt = some EvalPhase.persist then .error db
    else
      let db := { db with
        pending := db.pending ++ agentRows.map fun r => (RowKind.agentRecord, r),
        pendingStatus := some "COMPLETED" }
      .ok (DbState.commit db)

/-- `EvaluationService.run_evaluation`: run the body; on an exception, roll
back first, then set the evaluation row's status to `FAILED` and commit. -/
def runEvaluation (failAt : Option EvalPhase) (usefulRows agentRows : List String)
    (db : DbState) : DbState :=
  match runEvaluationBody failAt usefulRows agentRows db with
  | .ok db => db
  | .error db => DbState.commit { db.rollback with pendingStatus := some "FAILED" }

/-! ## Concrete scenario instances
Explicit environments, states and inputs used to evaluate the embedded
handlers at specific points. -/

/-- An environment with no registered tools, a model whose tool-call
argument strings always parse, and no broadcast topic. -/
def envPlain : Env :=
  ⟨"agentA", none, fun _ => true, [], [], fun _ _ => .ok "", fun _ _ => .ok "", fun s => some s⟩

/-- A fresh agent state: empty history, no thought, zeroed counters. -/
def stEmpty : AgentState := ⟨[], "", 0, "", [], [], 0⟩

/-- An environment owning one local tool `toolA` whose execution succeeds,
and where the argument string `"BAD"` fails JSON parsing. -/
def envToolA : Env :=
  ⟨"agentA", none, fun s => s != "BAD", ["toolA"], [], fun _ _ => .ok "ok",
    fun _ _ => .ok "ok", fun s => some s⟩

/-- An agent state mid-task with an existing thought. -/
def stBatch : AgentState := ⟨[], "user", 0, "plan", [], [], 0⟩

/-- A two-call batch whose first call carries malformed JSON arguments and
whose second call is well-formed. -/
def callsBad : List FunctionCall := [⟨"id1", "toolA", "BAD"⟩, ⟨"id2", "toolA", "good"⟩]

/-- An environment with local tool `alpha` and communication tool `beta`,
where the argument string `"MALFORMED"` fails JSON parsing. -/
def envAlpha : Env :=
  ⟨"agentB", none, fun s => s != "MALFORMED", ["alpha"], ["beta"], fun _ _ => .ok "ra",
    fun _ _ => .ok "rb", fun s => some s⟩

/-- A batch whose first call to `alpha` is malformed and whose second is
well-formed. -/
def callsAlpha : List FunctionCall := [⟨"x1", "alpha", "MALFORMED"⟩, ⟨"x2", "alpha", "fine"⟩]

/-- An environment owning one local tool `t`; all arguments parse. -/
def envToolT : Env :=
  ⟨"agentA", none, fun _ => true, ["t"], [], fun _ _ => .ok "r", fun _ _ => .ok "r",
    fun s => some s⟩

/-- Agent state before the first of three single-call batches. -/
def stT : AgentState := ⟨[], "u", 0, "p", [], [], 0⟩

/-- State after the first single-call batch. -/
def stT1 : AgentState := stateOf (batchPhase envToolT 0 stT [⟨"c1", "t", "x"⟩] [])

/-- State after the second single-call batch. -/
def stT2 : AgentState := stateOf (batchPhase envToolT 0 stT1 [⟨"c2", "t", "y"⟩] [])

/-- State after the third single-call batch. -/
def stT3 : AgentState := stateOf (batchPhase envToolT 0 stT2 [⟨"c3", "t", "z"⟩] [])

/-- A tool-less environment whose reflection arguments always parse; the
raw arguments string is taken as the `thought` parameter. -/
def envReflect : Env :=
  ⟨"agentD", none, fun _ => true, [], [], fun _ _ => .ok "", fun _ _ => .ok "",
    fun s => some s⟩

/-- An agent state whose chat history ends in a plain user turn. -/
def stEndsUser : AgentState := ⟨[.user "a" "u"], "", 0, "", [], [], 0⟩

/-- A model script answering the forced `create_thought` reflection call. -/
def scriptCreate : List ModelContent := [.calls [⟨"t1", "create_thought", "my plan"⟩]]

/-- A reflection model call invoking `get_thought`. -/
def getCall : FunctionCall := ⟨"g1", "get_thought", "noargs"⟩

/-- A reflection model call invoking `update_thought`. -/
def updCall : FunctionCall := ⟨"u1", "update_thought", "plan B"⟩

/-- A model script whose reflection chain reads the thought once and then
updates it. -/
def scriptGetThenUpdate : List ModelContent := [.calls [getCall], .calls [updCall]]

/-- An agent state with an existing thought, so the reflection enters the
`get_thought`/`update_thought` branch. -/
def stThought : AgentState := ⟨[], "", 0, "plan A", [], [], 0⟩

/-- A transcript of one system turn, one user turn and one plain assistant
answer. -/
def chatPlain : List ChatMsg :=
  [.system "You are an assistant.", .user "What is 2 plus 2?", .assistant "4" []]

/-- A fully populated rubric response, before nulling. -/
def scoresFull : StepScores :=
  ⟨some ⟨4, 1⟩, some ⟨4, 1⟩, some ⟨4, 1⟩, some ⟨4, 1⟩, some ⟨5, 1⟩⟩

/-- A clean database session before an evaluation run. -/
def dbInit : DbState := ⟨[], [], "RUNNING", none⟩

/-! # Theorems -/

/-- Helper: a list bounded above pointwise has its sum bounded by length
times the bound. -/
theorem list_sum_le_length_mul (l : List ℚ) (b : ℚ) (h : ∀ x ∈ l, x ≤ b) :
    l.sum ≤ l.length * b := by
  induction l with
  | nil => simp
  | cons x xs ih =>
    have hx : x ≤ b := h x (List.mem_cons_self x xs)
    have hxs := ih fun y hy => h y (List.mem_cons_of_mem x hy)
    simp only [List.sum_cons, List.length_cons]
    push_cast
    linarith

/-- Helper: a list bounded below pointwise has its sum bounded below by
length times the bound. -/
theorem length_mul_le_list_sum (l : List ℚ) (b : ℚ) (h : ∀ x ∈ l, b ≤ x) :
    l.length * b ≤ l.sum := by
  induction l with
  | nil => simp
  | cons x xs ih =>
    have hx : b ≤ x := h x (List.mem_cons_self x xs)
    have hxs := ih fun y hy => h y (List.mem_cons_of_mem x hy)
    simp only [List.sum_cons, List.length_cons]
    push_cast
    linarith

/-- C8: calibration computes `conf * clamp(score) + (1 - conf) * midpoint`;
for a fixed raw score strictly above the midpoint it is monotone in the
confidence over `[0, 1]`, and at confidence `0` it returns the midpoint
exactly. -/
theorem calibration_monotone_and_midpoint (mn mx s c1 c2 : ℚ) (hrange : mn ≤ mx)
    (hs : (mn + mx) / 2 < s) (hc1 : 0 ≤ c1) (h12 : c1 < c2) (hc2 : c2 ≤ 1) :
    calibrate mn mx s c1 ≤ calibrate mn mx s c2 ∧
      calibrate mn mx s 0 = (mn + mx) / 2 := by
  constructor
  · have hmid : (mn + mx) / 2 ≤ max mn (min s mx) :=
      le_trans (le_min (le_of_lt hs) (by linarith)) (le_max_right _ _)
    have key : 0 ≤ (c2 - c1) * (max mn (min s mx) - (mn + mx) / 2) :=
      mul_nonneg (by linarith) (by linarith)
    unfold calibrate
    nlinarith [key]
  · unfold calibrate
    ring

/-- C8 witness: the scale `[1, 5]` with raw score `4` and confidences `0 <
1`. -/
theorem calibration_monotone_and_midpoint_check :
    calibrate 1 5 4 0 ≤ calibrate 1 5 4 1 ∧ calibrate 1 5 4 0 = (1 + 5) / 2 :=
  calibration_monotone_and_midpoint 1 5 4 0 1 (by norm_num) (by norm_num)
    (le_refl 0) (by norm_num) (le_refl 1)

/-- C10: every calibrated score with confidence in `[0, 1]` lies within
`[min_score, max_score]`, and consequently every non-`none`
`step_score_aggregated` (the mean of the calibrated surviving dimensions)
lies within `[min_score, max_score]` as well. -/
theorem calibrated_scores_within_bounds (mn mx : ℚ) (dims : List (Option (ℚ × ℚ)))
    (hrange : mn ≤ mx) (hconf : ∀ p ∈ dims.filterMap id, 0 ≤ (p : ℚ × ℚ).2 ∧ p.2 ≤ 1) :
    (∀ s c, 0 ≤ c → c ≤ 1 → mn ≤ calibrate mn mx s c ∧ calibrate mn mx s c ≤ mx) ∧
      ∀ a, stepScoreAggregated mn mx dims = some a → mn ≤ a ∧ a ≤ mx := by
  have hcal : ∀ s c, 0 ≤ c → c ≤ 1 → mn ≤ calibrate mn mx s c ∧ calibrate mn mx s c ≤ mx := by
    intro s c hc0 hc1
    have h1 : mn ≤ max mn (min s mx) := le_max_left _ _
    have h2 : max mn (min s mx) ≤ mx := max_le hrange (min_le_right _ _)
    unfold calibrate
    constructor
    · nlinarith [mul_le_mul_of_nonneg_left h1 hc0,
        mul_le_mul_of_nonneg_left (show mn ≤ (mn + mx) / 2 by linarith)
          (show (0:ℚ) ≤ 1 - c by linarith)]
    · nlinarith [mul_le_mul_of_nonneg_left h2 hc0,
        mul_le_mul_of_nonneg_left (show (mn + mx) / 2 ≤ mx by linarith)
          (show (0:ℚ) ≤ 1 - c by linarith)]
  refine ⟨hcal, ?_⟩
  intro a ha
  simp only [stepScoreAggregated] at ha
  set cals := (dims.filterMap id).map (fun p => calibrate mn mx p.1 p.2) with hcals
  by_cases hlen : cals.length = 0
  · simp [hlen] at ha
  · rw [if_neg hlen] at ha
    have hbounds : ∀ x ∈ cals, mn ≤ x ∧ x ≤ mx := by
      intro x hx
      rw [hcals] at hx
      obtain ⟨p, hp, rfl⟩ := List.mem_map.mp hx
      exact hcal p.1 p.2 (hconf p hp).1 (hconf p hp).2
    have hpos : (0:ℚ) < cals.length := by
      exact_mod_cast Nat.pos_of_ne_zero hlen
    have hsum1 : (cals.length : ℚ) * mn ≤ cals.sum :=
      length_mul_le_list_sum cals mn fun x hx => (hbounds x hx).1
    have hsum2 : cals.sum ≤ (cals.length : ℚ) * mx :=
      list_sum_le_length_mul cals mx fun x hx => (hbounds x hx).2
    have haq : a = cals.sum / cals.length := (Option.some.injEq _ _ ▸ ha).symm
    subst haq
    constructor
    · rw [le_div_iff hpos]
      linarith
    · rw [div_le_iff hpos]
      linarith

/-- C10 witness: scale `[1, 5]`, one surviving dimension `(4, 1)` and one
nulled dimension; the calibrated value at raw score `10`, confidence `1/2`
and the aggregate `4` stay within the scale. -/
theorem calibrated_scores_within_bounds_check :
    (1:ℚ) ≤ calibrate 1 5 10 (1/2) ∧ calibrate 1 5 10 (1/2) ≤ 5 ∧
      (1:ℚ) ≤ 4 ∧ (4:ℚ) ≤ 5 := by
  obtain ⟨hcal, hagg⟩ :=
    calibrated_scores_within_bounds 1 5 [some (4, 1), none] (by norm_num) (by decide)
  have h1 := hcal 10 (1/2) (by norm_num) (by norm_num)
  have h2 := hagg 4 (by
    norm_num [stepScoreAggregated, calibrate, List.filterMap_cons, List.filterMap_nil])
  exact ⟨h1.1, h1.2, h2.1, h2.2⟩

/-- C9 counterexample: a run that raises during stepwise evaluation ends
with status `FAILED`, yet the `ToolUsefulness` row committed mid-run by
`calculate_tool_usefulness` persists in storage — the claim that no
partial evaluation records persist is false at this input. -/
theorem failed_run_keeps_committed_usefulness_rows :
    (runEvaluation (some .evalSteps) ["u1"] ["a1"] dbInit).status = "FAILED" ∧
    (runEvaluation (some .evalSteps) ["u1"] ["a1"] dbInit).committed =
      [(RowKind.toolUsefulness, "u1")] ∧
    (runEvaluation (some .evalSteps) ["u1"] ["a1"] dbInit).committed ≠ dbInit.committed := by
  decide

/-- C9 amended: any exception during an evaluation run rolls back the
pending (uncommitted) transaction and sets the evaluation row's status to
`FAILED`, but the `ToolUsefulness` rows committed by
`calculate_tool_usefulness` persist when the failure happens after that
phase, so writes for one run are not all-or-nothing. -/
theorem failure_rolls_back_pending_marks_failed (failAt : EvalPhase)
    (usefulRows agentRows : List String) (db : DbState)
    (hpend : db.pending = []) (hps : db.pendingStatus = none) :
    (runEvaluation (some failAt) usefulRows agentRows db).status = "FAILED" ∧
    (runEvaluation (some failAt) usefulRows agentRows db).pending = [] ∧
    (runEvaluation (some failAt) usefulRows agentRows db).committed =
      db.committed ++
        (if failAt = EvalPhase.evalSteps ∨ failAt = EvalPhase.persist then
          usefulRows.map fun r => (RowKind.toolUsefulness, r)
        else []) := by
  cases failAt <;>
    simp [runEvaluation, runEvaluationBody, DbState.commit, DbState.rollback, hpend, hps]

/-- C9 amended witness: a failure in the stepwise-evaluation phase of a
clean session. -/
theorem failure_rolls_back_pending_marks_failed_check :
    (runEvaluation (some .evalSteps) ["u2"] ["a2"] dbInit).status = "FAILED" ∧
    (runEvaluation (some .evalSteps) ["u2"] ["a2"] dbInit).pending = [] ∧
    (runEvaluation (some .evalSteps) ["u2"] ["a2"] dbInit).committed =
      [(RowKind.toolUsefulness, "u2")] := by
  have h := failure_rolls_back_pending_marks_failed .evalSteps ["u2"] ["a2"] dbInit rfl rfl
  simpa using h

/-- C1 (code bug): an `AgentTask` whose model-completion result is plain
text falls through `handle_agent_task`'s missing `else` branch — the agent
publishes no `AgentResponse` and appends no Assistant entry, while the
claim (and the handler's own docstring) requires both. -/
theorem agent_task_text_response_dropped :
    handleAgentTask envPlain 5 stEmpty "alice" [.user "do X" "alice"] [.text "done"] =
      .ok (⟨[.user "do X" "alice"], "alice", 0, "", [], [], 0⟩, []) ∧
    (stateOf (handleAgentTask envPlain 5 stEmpty "alice" [.user "do X" "alice"]
      [.text "done"])).responses = [] ∧
    (stateOf (handleAgentTask envPlain 5 stEmpty "alice" [.user "do X" "alice"]
      [.text "done"])).chatHistory = [.user "do X" "alice"] :=
  ⟨rfl, rfl, rfl⟩

/-- C7 (code bug): a transcript ending in a plain assistant answer yields a
step whose strategy label is the literal `"agent response"`, which never
equals the `"response"` literal tested by `stepwise_agent_eval`; the code
therefore nulls `response_completeness` and keeps both tool-correctness
dimensions, the opposite of the claimed nulling for a non-tool step. -/
theorem plain_response_step_nulls_completeness :
    parseChatN chatPlain 2 =
      [⟨some "You are an assistant.", some "What is 2 plus 2?", "agent response",
        none, "4", 2⟩] ∧
    (nullInapplicable "agent response" none scoresFull).responseCompleteness = none ∧
    (nullInapplicable "agent response" none scoresFull).invokedToolCorrectness = some ⟨4, 1⟩ ∧
    (nullInapplicable "agent response" none scoresFull).toolResultCorrectness = some ⟨4, 1⟩ := by
  decide

/-- Helper: every successful `execCall` outcome carries the call's own id
and name. -/
theorem execCall_ok_fields (env : Env) (c : FunctionCall) (r : FunctionExecutionResult)
    (h : execCall env c = .ok r) : r.call_id = c.id ∧ r.name = c.name := by
  unfold execCall at h
  by_cases h1 : env.jsonOk c.arguments = false
  · rw [if_pos h1] at h
    simp at h
  · rw [if_neg h1] at h
    by_cases h2 : c.name ∈ env.localTools
    · rw [if_pos h2] at h
      cases henv : env.runLocal c.name c.arguments <;> rw [henv] at h <;>
        cases h <;> exact ⟨rfl, rfl⟩
    · rw [if_neg h2] at h
      by_cases h3 : c.name ∈ env.commTools
      · rw [if_pos h3] at h
        cases henv : env.runComm c.name c.arguments <;> rw [henv] at h <;>
          cases h <;> exact ⟨rfl, rfl⟩
      · rw [if_neg h3] at h
        cases h
        exact ⟨rfl, rfl⟩

/-- Helper: a successful batch loop yields one result per call with
matching ids in order, and advances the call counter once per call. -/
theorem processCalls_ok_spec (env : Env) :
    ∀ (calls : List FunctionCall) (k : Nat) (rs : List FunctionExecutionResult) (k2 : Nat),
      processCalls env calls k = .ok (rs, k2) →
      rs.length = calls.length ∧ k2 = k + calls.length ∧
        List.Forall₂ (fun (r : FunctionExecutionResult) (c : FunctionCall) =>
          r.call_id = c.id) rs calls := by
  intro calls
  induction calls with
  | nil =>
    intro k rs k2 h
    simp only [processCalls] at h
    cases h
    exact ⟨rfl, rfl, .nil⟩
  | cons c cs ih =>
    intro k rs k2 h
    simp only [processCalls] at h
    cases hexec : execCall env c with
    | error e =>
      rw [hexec] at h
      simp at h
    | ok r =>
      rw [hexec] at h
      cases hrec : processCalls env cs (k + 1) with
      | error ek =>
        rw [hrec] at h
        simp at h
      | ok p =>
        obtain ⟨rs', k'⟩ := p
        rw [hrec] at h
        cases h
        obtain ⟨hl, hk, hf⟩ := ih (k + 1) _ _ hrec
        have hid := (execCall_ok_fields env c r hexec).1
        exact ⟨by simp [hl], by simp only [List.length_cons]; omega, .cons hid hf⟩

/-- Helper: taking the length of the left part of an append returns it. -/
theorem take_length_append {α : Type} (l t : List α) : (l ++ t).take l.length = l := by
  induction l with
  | nil => simp
  | cons x xs ih => simp [ih]

/-- Helper: taking a count equal to the left part's length returns it. -/
theorem take_append_eq_left {α : Type} (l t : List α) (n : Nat) (h : n = l.length) :
    (l ++ t).take n = l := by
  subst h
  exact take_length_append l t

/-- C2 counterexample: a batch whose first call carries malformed JSON
arguments raises out of the per-call loop — the assistant entry is in the
history but no FunctionResult-collection entry is ever appended, so the
number of results produced (zero) differs from the number of calls
received (two). -/
theorem malformed_batch_appends_no_result_entry :
    batchPhase envToolA 0 stBatch callsBad [] =
      .error (.exn "json.loads failed on arguments of toolA",
        ⟨[.assistantCalls callsBad "agentA"], "user", 1, "plan", [], [], 0⟩) ∧
    callsBad.length = 2 := ⟨rfl, rfl⟩

/-- C2 amended: for every batch whose per-call loop completes without a
raised exception (equivalently, every call's arguments parse as JSON),
exactly one FunctionResult is produced per FunctionCall with pairwise
matching ids in call order, and the history gains exactly the assistant
tool-call entry followed by one single FunctionResult-collection entry
holding all the results. -/
theorem batch_result_correspondence (env : Env) (fuel : Nat) (st : AgentState)
    (calls : List FunctionCall) (script : List ModelContent)
    (rs : List FunctionExecutionResult) (k : Nat)
    (hok : processCalls env calls st.numToolCalls = .ok (rs, k)) :
    rs.length = calls.length ∧
    List.Forall₂ (fun (r : FunctionExecutionResult) (c : FunctionCall) =>
      r.call_id = c.id) rs calls ∧
    (stateOf (batchPhase env fuel st calls script)).chatHistory.take
        (st.chatHistory.length + 2) =
      st.chatHistory ++ [.assistantCalls calls env.agentType, .functionResults rs] := by
  obtain ⟨hl, hk, hf⟩ := processCalls_ok_spec env calls st.numToolCalls rs k hok
  refine ⟨hl, hf, ?_⟩
  simp only [batchPhase, hok]
  by_cases h3 : 3 < k
  · simp only [if_pos h3]
    split
    · simp only [stateOf]
      rw [List.take_of_length_le (by
        simp only [List.length_append, List.length_cons, List.length_nil]; try omega)]
      simp
    · simp only [stateOf]
      rw [take_append_eq_left _ _ _ (by
        simp only [List.length_append, List.length_cons, List.length_nil]; try omega)]
      simp
  · simp only [if_neg h3]
    simp only [stateOf]
    rw [List.take_of_length_le (by
      simp only [List.length_append, List.length_cons, List.length_nil]; try omega)]
    simp

/-- C2 amended witness: a two-call batch (one real tool, one unknown name)
appends one assistant entry and one results entry with both results in call
order. -/
theorem batch_result_correspondence_check :
    (stateOf (batchPhase envToolT 0 stT [⟨"a1", "t", "x"⟩, ⟨"a2", "nope", "y"⟩]
      [])).chatHistory.take 2 =
      [.assistantCalls [⟨"a1", "t", "x"⟩, ⟨"a2", "nope", "y"⟩] "agentA",
        .functionResults [⟨"t", "r", "a1", false⟩,
          ⟨"nope", "NameError: nope is not a valid tool", "a2", true⟩]] := by
  have h := batch_result_correspondence envToolT 0 stT
    [⟨"a1", "t", "x"⟩, ⟨"a2", "nope", "y"⟩] []
    [⟨"t", "r", "a1", false⟩, ⟨"nope", "NameError: nope is not a valid tool", "a2", true⟩]
    2 rfl
  simpa [stT] using h.2.2

/-- C3 counterexample: the malformed first call of a batch makes the
per-batch processing itself return the raised exception — the remaining
well-formed call is never looked up and no error result is produced for
the malformed call, contradicting fatal-for-that-call-only. -/
theorem malformed_call_error_propagates :
    processCalls envAlpha callsAlpha 0 =
      .error ("json.loads failed on arguments of alpha", 1) := rfl

/-- C3 amended: a FunctionCall with malformed JSON arguments is fatal to
the whole batch — the loop raises at that call, produces no result for it
and never reaches the remaining calls; an unregistered tool name with
well-formed arguments, by contrast, never raises and yields an
`is_error` result containing the tool name. -/
theorem malformed_call_aborts_whole_batch (env : Env) (c : FunctionCall)
    (cs : List FunctionCall) (k : Nat) (hbad : env.jsonOk c.arguments = false) :
    processCalls env (c :: cs) k =
      .error ("json.loads failed on arguments of " ++ c.name, k + 1) ∧
    ∀ d : FunctionCall, env.jsonOk d.arguments = true → d.name ∉ env.localTools →
      d.name ∉ env.commTools →
      execCall env d =
        .ok ⟨d.name, "NameError: " ++ d.name ++ " is not a valid tool", d.id, true⟩ := by
  constructor
  · have hc : execCall env c = .error ("json.loads failed on arguments of " ++ c.name) := by
      unfold execCall
      rw [if_pos hbad]
    simp only [processCalls, hc]
  · intro d hd h1 h2
    unfold execCall
    rw [if_neg (by simp [hd]), if_neg h1, if_neg h2]

/-- C3 amended witness: a malformed call aborts its batch, and an unknown
tool name yields the uniform `NameError` result. -/
theorem malformed_call_aborts_whole_batch_check :
    processCalls envAlpha [⟨"y1", "alpha", "MALFORMED"⟩, ⟨"y2", "beta", "ok"⟩] 5 =
      .error ("json.loads failed on arguments of alpha", 6) ∧
    execCall envAlpha ⟨"y3", "gamma", "fine"⟩ =
      .ok ⟨"gamma", "NameError: gamma is not a valid tool", "y3", true⟩ := by
  obtain ⟨h1, h2⟩ := malformed_call_aborts_whole_batch envAlpha
    ⟨"y1", "alpha", "MALFORMED"⟩ [⟨"y2", "beta", "ok"⟩] 5 (by decide)
  exact ⟨h1, h2 ⟨"y3", "gamma", "fine"⟩ (by decide) (by decide) (by decide)⟩

/-- C4 counterexample: three consecutive single-call batches leave the
call counter at 3 and trigger no reflection pass at all, while the claim
requires a reflection pass after the third accumulated tool-call batch. -/
theorem three_single_call_batches_no_reflection :
    stT3.reflections = 0 ∧ stT3.numToolCalls = 3 ∧
    batchPhase envToolT 0 stT2 [⟨"c3", "t", "z"⟩] [] = .ok (stT3, []) :=
  ⟨rfl, rfl, rfl⟩

/-- C4 amended: a reflection pass runs unconditionally on every `UserTask`
and does not reset the per-call counter there; after a tool-call batch the
counter has grown by one per function call, a reflection pass runs exactly
when the counter exceeds 3 (at least four accumulated calls), and only such
a pass resets it to zero. -/
theorem reflection_trigger_rule (env : Env) (fuel : Nat) (st : AgentState)
    (calls : List FunctionCall) (script : List ModelContent)
    (senderTopic : String) (context : List LLMMessage)
    (rs : List FunctionExecutionResult) (k : Nat)
    (hok : processCalls env calls st.numToolCalls = .ok (rs, k)) :
    k = st.numToolCalls + calls.length ∧
    (stateOf (batchPhase env fuel st calls script)).reflections =
      st.reflections + (if 3 < k then 1 else 0) ∧
    (∀ st2 sc, batchPhase env fuel st calls script = .ok (st2, sc) →
      st2.numToolCalls = if 3 < k then 0 else k) ∧
    (stateOf (userTaskReceive env fuel st senderTopic context script)).reflections =
      st.reflections + 1 ∧
    (stateOf (userTaskReceive env fuel st senderTopic context script)).numToolCalls =
      st.numToolCalls := by
  obtain ⟨hl, hk, hf⟩ := processCalls_ok_spec env calls st.numToolCalls rs k hok
  refine ⟨hk, ?_, ?_, ?_, ?_⟩
  · simp only [batchPhase, hok]
    by_cases h3 : 3 < k
    · simp only [if_pos h3]
      split <;> simp [stateOf, h3]
    · simp only [if_neg h3]
      simp [stateOf, h3]
  · intro st2 sc hb
    simp only [batchPhase, hok] at hb
    by_cases h3 : 3 < k
    · simp only [if_pos h3] at hb
      split at hb
      · simp at hb
      · cases hb
        simp [h3]
    · simp only [if_neg h3] at hb
      cases hb
      simp [h3]
  · simp only [userTaskReceive]
    cases env.broadcastTopic <;> (split <;> simp [stateOf])
  · simp only [userTaskReceive]
    cases env.broadcastTopic <;> (split <;> simp [stateOf])

/-- C4 amended witness: one more single-call batch after three accumulated
calls leaves the counter at 3 with no reset, and a `UserTask` prefix always
reflects once. -/
theorem reflection_trigger_rule_check :
    stT3.numToolCalls = 3 ∧
    (stateOf (userTaskReceive envToolT 0 stT2 "User" [.user "m" "u"] [])).reflections =
      stT2.reflections + 1 := by
  obtain ⟨hk, hrefl, hcnt, hur, hun⟩ := reflection_trigger_rule envToolT 0 stT2
    [⟨"c3", "t", "z"⟩] [] "User" [.user "m" "u"] [⟨"t", "r", "c3", false⟩] 3 rfl
  refine ⟨?_, hur⟩
  have h := hcnt stT3 [] rfl
  simpa using h

/-- C5 counterexample: a `UserTask` arriving while the chat history ends in
a plain user turn appends the message content as a new user turn (the
history then holds two separate user entries) instead of merging it into
the ending turn. -/
theorem user_task_appends_new_user_turn :
    userTaskReceive envReflect 3 stEndsUser "User" [.user "b" "u"] scriptCreate =
      .ok (⟨[.user "a" "u", .user "b" "u",
        .assistantCalls [⟨"t1", "create_thought", "my plan"⟩] "agentD",
        .functionResults [⟨"create_thought", "Thought created", "t1", false⟩]],
        "User", 0, "my plan", [], [], 1⟩, []) ∧
    (stateOf (userTaskReceive envReflect 3 stEndsUser "User" [.user "b" "u"]
      scriptCreate)).chatHistory.take 2 = [.user "a" "u", .user "b" "u"] :=
  ⟨rfl, rfl⟩

/-- C5 amended: only `handle_agent_task` merges — when its chat history
ends in a plain user turn, the final context entry's content is
concatenated onto that turn; with any other ending the context entries are
appended; `handle_user_task` always appends the context entries as new
turns, never merging. -/
theorem history_merge_only_on_agent_task (st : AgentState) (topic : String) :
    (∀ pre c src ctx1 last, st.chatHistory = pre ++ [LLMMessage.user c src] →
      agentTaskReceive st topic (ctx1 ++ [last]) =
        .ok { st with
          chatHistory := pre ++ [.user (c ++ "\n\n" ++ last.contentStr) src],
          senderTopic := topic }) ∧
    (∀ context, (∀ c src, st.chatHistory.getLast? ≠ some (.user c src)) →
      agentTaskReceive st topic context =
        .ok { st with chatHistory := st.chatHistory ++ context, senderTopic := topic }) ∧
    ∀ (env : Env) (fuel : Nat) (context : List LLMMessage) (script : List ModelContent),
      (stateOf (userTaskReceive env fuel st topic context script)).chatHistory.take
        (st.chatHistory.length + context.length) = st.chatHistory ++ context := by
  refine ⟨?_, ?_, ?_⟩
  · intro pre c src ctx1 last hh
    unfold agentTaskReceive
    rw [hh]
    simp [List.getLast?_concat, List.dropLast_concat]
  · intro context hne
    unfold agentTaskReceive
    cases hl : st.chatHistory.getLast? with
    | none => rfl
    | some msg =>
      cases msg with
      | user c src => exact absurd hl (hne c src)
      | system c => rfl
      | assistantText c s => rfl
      | assistantCalls cs s => rfl
      | functionResults rsx => rfl
  · intro env fuel context script
    simp only [userTaskReceive]
    cases env.broadcastTopic <;>
      (split <;>
        (simp only [stateOf]
         first
          | rw [List.take_of_length_le (by
              simp only [List.length_append]; omega)]
          | rw [take_append_eq_left _ _ _ (by
              simp only [List.length_append])]))

/-- C5 amended witness: the merge on an `AgentTask` with an ending user
turn, the plain append otherwise, and the always-append on a `UserTask`. -/
theorem history_merge_only_on_agent_task_check :
    agentTaskReceive stEndsUser "boss" [.user "c" "v"] =
      .ok ⟨[.user "a\n\nc" "u"], "boss", 0, "", [], [], 0⟩ ∧
    agentTaskReceive stEmpty "boss" [.user "c" "v"] =
      .ok ⟨[.user "c" "v"], "boss", 0, "", [], [], 0⟩ ∧
    (stateOf (userTaskReceive envReflect 2 stEndsUser "User" [.user "q" "u"]
      [])).chatHistory.take 2 = [.user "a" "u", .user "q" "u"] := by
  refine ⟨?_, ?_, ?_⟩
  · exact (history_merge_only_on_agent_task stEndsUser "boss").1 [] "a" "u" []
      (.user "c" "v") rfl
  · exact (history_merge_only_on_agent_task stEmpty "boss").2.1 [.user "c" "v"]
      (fun c src => by simp [stEmpty])
  · exact (history_merge_only_on_agent_task stEndsUser "User").2.2 envReflect 2
      [.user "q" "u"] []

/-- C6 counterexample: with an existing thought and a model chain calling
`get_thought` then `update_thought`, the reflection recurses but the
`get_thought` assistant tool-call entry never reaches the agent's actual
chat history — only the terminal `update_thought` exchange is appended,
while the claim requires the `get_thought` exchange there. -/
theorem get_thought_exchange_absent_from_history :
    userTaskReceive envReflect 3 stThought "User" [.user "task" "u"] scriptGetThenUpdate =
      .ok (⟨[.user "task" "u",
        .assistantCalls [updCall] "agentD",
        .functionResults [⟨"update_thought", "Thought updated", "u1", false⟩]],
        "User", 0, "plan B", [], [], 1⟩, []) ∧
    LLMMessage.assistantCalls [getCall] "agentD" ∉
      (stateOf (userTaskReceive envReflect 3 stThought "User" [.user "task" "u"]
        scriptGetThenUpdate)).chatHistory := by
  refine ⟨rfl, ?_⟩
  decide

/-- C6 amended: when `get_thought` is among the reflection calls, the
assistant call and its execution result are appended to the reflection's
local working context (the deep copy it keeps sending to the model) and the
reflection recurses; the agent's actual chat history receives only the
`think_context` returned by the terminal reflection step. -/
theorem get_thought_recursion_local_only (env : Env) (fuel : Nat) (th th2 : String)
    (ctx : List LLMMessage) (cs : List FunctionCall) (rest : List ModelContent)
    (res : List FunctionExecutionResult)
    (hth : th ≠ "") (hexec : reflExec env cs th = .ok (res, th2, true)) :
    runReflection env (fuel + 1) th ctx (.calls cs :: rest) =
      runReflection env fuel th2
        (ctx ++ [.assistantCalls cs env.agentType, .functionResults res]) rest ∧
    ∀ (st : AgentState) (topic : String) (context : List LLMMessage)
      (script : List ModelContent) (out : AgentState) (rest2 : List ModelContent),
      userTaskReceive env fuel st topic context script = .ok (out, rest2) →
      ∃ r : ReflOut, think env fuel st.thought (st.chatHistory ++ context) script = .ok r ∧
        out.chatHistory = st.chatHistory ++ context ++ r.thinkContext ∧
        rest2 = r.rest := by
  constructor
  · conv_lhs => rw [runReflection]
    rw [if_pos hth]
    simp only [hexec, if_true]
  · intro st topic context script out rest2 h
    simp only [userTaskReceive] at h
    cases hb : env.broadcastTopic with
    | none =>
      rw [hb] at h
      split at h
      · simp at h
      · cases h
        rename_i r heq
        exact ⟨r, by simpa using heq, by simp, rfl⟩
    | some t =>
      rw [hb] at h
      split at h
      · simp at h
      · cases h
        rename_i r heq
        exact ⟨r, by simpa using heq, by simp, rfl⟩

/-- C6 amended witness: a single `get_thought` call makes the reflection
recurse on the locally extended context. -/
theorem get_thought_recursion_local_only_check :
    runReflection envReflect 1 "plan A" [] [.calls [getCall], .calls [updCall]] =
      runReflection envReflect 0 "plan A"
        [.assistantCalls [getCall] "agentD",
          .functionResults [⟨"get_thought", "plan A", "g1", false⟩]]
        [.calls [updCall]] :=
  (get_thought_recursion_local_only envReflect 0 "plan A" "plan A" [] [getCall]
    [.calls [updCall]] [⟨"get_thought", "plan A", "g1", false⟩] (by decide) rfl).1

end TemplateEnv
